import Mathlib

/-!
Verification of the operation-registry and configuration-resolution subsystem
of the mcp-grocy server.

The definitions below are a shallow embedding of the TypeScript source:
* src/tools/types.ts and src/tools/module-loader.ts (module shape check,
  module loading, registry aggregation),
* src/config/index.ts (ConfigManager: YAML schema defaults and range checks,
  environment overrides, tool-configuration parsing),
* src/server/mcp-server.ts (GrocyMcpServer: enabled-tool validation at
  startup, the ListTools and CallTool request handlers).

JavaScript objects are modelled as association lists (insertion order
preserved, as Object.entries does), JavaScript runtime values by the
inductive type JsStoredVal, process exit by an error constructor, and
exceptions by Except.  URL-format validation performed by the zod schema
is not modelled (no claim depends on it); numeric range checks are.
-/

set_option linter.unusedVariables false

namespace McpGrocy

/-- Lookup of a key in a modelled JavaScript object: the value of the
first field carrying the key, if any (keys stay unique under setKey). -/
def lookupKey {A : Type} : List (String × A) → String → Option A
  | [], _ => none
  | kv :: m, k => if kv.1 = k then some kv.2 else lookupKey m k

/-- A JavaScript runtime value, as far as the module shape check and tool
sub-configurations need: undefined, null, booleans, numbers, strings,
arrays and plain objects (association lists of fields in insertion order). -/
inductive JsStoredVal where
  | undefinedVal
  | null
  | bool (b : Bool)
  | num (n : Int)
  | str (s : String)
  | arr (elems : List JsStoredVal)
  | obj (fields : List (String × JsStoredVal))

/-- The JavaScript typeof operator on the modelled values.  Note that
typeof null and typeof of an array are both the string "object". -/
def JsStoredVal.typeofStr : JsStoredVal → String
  | .undefinedVal => "undefined"
  | .null => "object"
  | .bool _ => "boolean"
  | .num _ => "number"
  | .str _ => "string"
  | .arr _ => "object"
  | .obj _ => "object"

/-- JavaScript truthiness: undefined, null, false, 0 and the empty string
are falsy; every object and array is truthy. -/
def JsStoredVal.truthy : JsStoredVal → Bool
  | .undefinedVal => false
  | .null => false
  | .bool b => b
  | .num n => n != 0
  | .str s => s != ""
  | .arr _ => true
  | .obj _ => true

/-- Property access obj.k: the first field named k of a plain object,
undefined when the field is absent or the value is not a plain object. -/
def JsStoredVal.getField : JsStoredVal → String → JsStoredVal
  | .obj fields, k => (lookupKey fields k).getD .undefinedVal
  | _, _ => .undefinedVal

/-- Array.isArray on the modelled values. -/
def JsStoredVal.isArrayVal : JsStoredVal → Bool
  | .arr _ => true
  | _ => false

/-- The length of an array value; 0 for non-arrays (only ever used after
an Array.isArray check). -/
def JsStoredVal.arrLength : JsStoredVal → Nat
  | .arr elems => elems.length
  | _ => 0

/-- ModuleLoader.isToolModule (src/tools/module-loader.ts): a candidate
export is accepted when it is truthy, of typeof object, its definitions
field is an array, its handlers field has typeof object, and the
definitions array is non-empty. -/
def isToolModule (o : JsStoredVal) : Bool :=
  o.truthy && o.typeofStr == "object"
    && (o.getField "definitions").isArrayVal
    && (o.getField "handlers").typeofStr == "object"
    && (o.getField "definitions").arrLength > 0

/-- ModuleLoader.loadModule: a dynamic import either rejects (modelled by
Except.error, caught by the try block so the load yields no bundle) or
yields the module export object; the first export value that satisfies
isToolModule becomes the loaded bundle, otherwise no bundle is loaded. -/
def loadModule (importResult : Except String (List (String × JsStoredVal))) :
    Option JsStoredVal :=
  match importResult with
  | .error _ => none
  | .ok exportsList => (exportsList.map Prod.snd).find? isToolModule

/-- ModuleLoader.loadAllModules: every folder is loaded independently
(Promise.allSettled), failed or shapeless loads are logged and skipped,
and the successfully loaded bundles are returned in folder order. -/
def loadAllModules (imports : List (Except String (List (String × JsStoredVal)))) :
    List JsStoredVal :=
  imports.filterMap loadModule

/-- A tool definition as aggregated by the registry (the input schema is
irrelevant to every claim and is elided). -/
structure ToolDefinition where
  name : String
  description : String
  deriving Repr, DecidableEq

/-- One entry of a tool result content array. -/
structure ContentEntry where
  type : String
  text : String
  deriving Repr, DecidableEq

/-- A tool result: a content list plus the isError marker (absent in the
source defaults to false). -/
structure ToolResult where
  content : List ContentEntry
  isError : Bool := false
  deriving Repr, DecidableEq

/-- Tool sub-configurations: the Map of extra option keys handed to a
handler. -/
abbrev SubConfigs := List (String × JsStoredVal)

/-- A tool handler: receives the call arguments and the optional
sub-configuration map, and either returns a ToolResult or throws. -/
abbrev ToolHandlerFn := JsStoredVal → Option SubConfigs → Except String ToolResult

/-- A sub-configuration validator: passes or throws a descriptive error. -/
abbrev SubConfigValidatorFn := SubConfigs → Except String Unit

/-- A loaded tool module bundle (src/tools/types.ts ToolModule): a list of
definitions, a handlers object, and an optional validators object.  The
handler and validator types are parameters so that concrete test values
can be compared. -/
structure ToolModule (H V : Type) where
  definitions : List ToolDefinition
  handlers : List (String × H)
  validators : Option (List (String × V)) := none

/-- Assignment m[k] = v on a modelled JavaScript object: an existing key
is overwritten in place, a new key is appended. -/
def setKey {A : Type} (m : List (String × A)) (k : String) (v : A) :
    List (String × A) :=
  match lookupKey m k with
  | some _ => m.map (fun kv => if kv.1 = k then (k, v) else kv)
  | none => m ++ [(k, v)]

/-- Object.assign(base, src): every entry of src is assigned onto base in
order, so later entries for the same key win. -/
def objAssign {A : Type} (base src : List (String × A)) : List (String × A) :=
  src.foldl (fun acc kv => setKey acc kv.1 kv.2) base

/-- The aggregated tool registry (createToolRegistry closure state). -/
structure ToolRegistry (H V : Type) where
  definitions : List ToolDefinition
  handlers : List (String × H)
  validators : List (String × V)

/-- createToolRegistry (src/tools/module-loader.ts): definitions of every
module are pushed onto one flat list; handlers and validators are merged
with Object.assign, so a later module silently overwrites an earlier one
for the same name. -/
def createToolRegistry {H V : Type} (modules : List (ToolModule H V)) :
    ToolRegistry H V :=
  { definitions := modules.foldl (fun acc m => acc ++ m.definitions) []
    handlers := modules.foldl (fun acc m => objAssign acc m.handlers) []
    validators := modules.foldl
      (fun acc m =>
        match m.validators with
        | some vs => objAssign acc vs
        | none => acc) [] }

/-- registry.getDefinitions. -/
def getDefinitions {H V : Type} (r : ToolRegistry H V) : List ToolDefinition :=
  r.definitions

/-- registry.getHandler: absent name yields undefined, not an error. -/
def getHandler {H V : Type} (r : ToolRegistry H V) (name : String) : Option H :=
  lookupKey r.handlers name

/-- registry.getValidator. -/
def getValidator {H V : Type} (r : ToolRegistry H V) (name : String) : Option V :=
  lookupKey r.validators name

/-- registry.getToolNames: the name of every aggregated definition, in
definition-list order (duplicates included). -/
def getToolNames {H V : Type} (r : ToolRegistry H V) : List String :=
  r.definitions.map (fun d => d.name)

/-- One entry of the tools section after YamlConfigSchema.parse: the
enabled flag (schema default false), the optional ack_token string, and
the catchall extra option keys in insertion order. -/
structure ToolConfigEntry where
  enabled : Bool
  ack_token : Option String
  extra : List (String × JsStoredVal)

/-- The grocy section of the resolved YAML configuration. -/
structure GrocySection where
  base_url : String
  api_key : Option String
  enable_ssl_verify : Bool
  response_size_limit : Int
  deriving Repr, DecidableEq

/-- The server section of the resolved YAML configuration. -/
structure ServerSection where
  enable_http_server : Bool
  http_server_port : Int
  deriving Repr, DecidableEq

/-- The YAML configuration after YamlConfigSchema.parse (defaults
applied). -/
structure YamlConfig where
  server : ServerSection
  grocy : GrocySection
  tools : List (String × ToolConfigEntry)

/-- The raw YAML file content relevant to the schema: every leaf may be
present or absent (absent leaves take the schema default).  Leaves are
already of the schema type; zod type errors are outside this model, the
range checks are inside it. -/
structure YamlFileInput where
  server_enable_http_server : Option Bool := none
  server_http_server_port : Option Int := none
  grocy_base_url : Option String := none
  grocy_api_key : Option String := none
  grocy_enable_ssl_verify : Option Bool := none
  grocy_response_size_limit : Option Int := none
  tools : List (String × ToolConfigEntry) := []

/-- The range violations YamlConfigSchema reports on a file: the port
bounds min(1) and max(65535) and the positive() bound on the response
size limit, each as a field path plus message (zod reports every issue). -/
def yamlSchemaIssues (f : YamlFileInput) : List (String × String) :=
  (match f.server_http_server_port with
   | some p =>
       (if p < 1 then
          [("server.http_server_port", "Number must be greater than or equal to 1")]
        else []) ++
       (if p > 65535 then
          [("server.http_server_port", "Number must be less than or equal to 65535")]
        else [])
   | none => []) ++
  (match f.grocy_response_size_limit with
   | some n =>
       if n ≤ 0 then
         [("grocy.response_size_limit", "Number must be greater than 0")]
       else []
   | none => [])

/-- The schema defaults of YamlConfigSchema: every absent leaf takes its
declared default; an absent api_key stays absent. -/
def fillDefaults (f : YamlFileInput) : YamlConfig :=
  { server :=
      { enable_http_server := f.server_enable_http_server.getD false
        http_server_port := f.server_http_server_port.getD 8080 }
    grocy :=
      { base_url := f.grocy_base_url.getD "http://localhost:9283"
        api_key := f.grocy_api_key
        enable_ssl_verify := f.grocy_enable_ssl_verify.getD true
        response_size_limit := f.grocy_response_size_limit.getD 10000 }
    tools := f.tools }

/-- ConfigManager.loadYamlConfig: schema violations log every field path
and message and terminate the process (modelled by Except.error); a valid
file resolves with the schema defaults filled in. -/
def loadYamlConfig (f : YamlFileInput) : Except (List (String × String)) YamlConfig :=
  if (yamlSchemaIssues f).length > 0 then
    .error (yamlSchemaIssues f)
  else
    .ok (fillDefaults f)

/-- The process environment snapshot, restricted to the variables the
EnvironmentSchema declares for grocy and server overrides. -/
structure EnvRaw where
  GROCY_BASE_URL : Option String := none
  GROCY_API_KEY : Option String := none
  GROCY_ENABLE_SSL_VERIFY : Option String := none
  REST_RESPONSE_SIZE_LIMIT : Option String := none
  ENABLE_HTTP_SERVER : Option String := none
  HTTP_SERVER_PORT : Option String := none

/-- The regex check of the digit-only environment variables: at least one
character und every character a decimal digit. -/
def isDigits (s : String) : Bool :=
  s.length > 0 && s.toList.all (fun c => c.isDigit)

/-- The enum check of the boolean-valued environment variables. -/
def isBoolStr (s : String) : Bool :=
  s == "true" || s == "false"

/-- The violations EnvironmentSchema reports on a snapshot: the two enum
variables must be the string true or false, the two numeric variables
must match the digits-only regex.  GROCY_API_KEY is an unconstrained
optional string; the URL-format check on GROCY_BASE_URL is not modelled. -/
def envSchemaIssues (e : EnvRaw) : List (String × String) :=
  (match e.GROCY_ENABLE_SSL_VERIFY with
   | some s => if isBoolStr s then [] else [("GROCY_ENABLE_SSL_VERIFY", "Invalid enum value")]
   | none => []) ++
  (match e.REST_RESPONSE_SIZE_LIMIT with
   | some s => if isDigits s then [] else [("REST_RESPONSE_SIZE_LIMIT", "Invalid")]
   | none => []) ++
  (match e.ENABLE_HTTP_SERVER with
   | some s => if isBoolStr s then [] else [("ENABLE_HTTP_SERVER", "Invalid enum value")]
   | none => []) ++
  (match e.HTTP_SERVER_PORT with
   | some s => if isDigits s then [] else [("HTTP_SERVER_PORT", "Invalid")]
   | none => [])

/-- ConfigManager.loadEnvironment: a schema violation logs every issue
and terminates the process (modelled by Except.error); otherwise the
snapshot passes through. -/
def loadEnvironment (e : EnvRaw) : Except (List (String × String)) EnvRaw :=
  if (envSchemaIssues e).length > 0 then .error (envSchemaIssues e) else .ok e

/-- parseInt(s, 10) on a string already known to match the digits regex. -/
def parseDigits (s : String) : Int :=
  Int.ofNat (s.toList.foldl (fun n c => n * 10 + (c.toNat - 48)) 0)

/-- ConfigManager.applyEnvironmentOverrides: GROCY_BASE_URL and
GROCY_API_KEY override only when truthy (a set but empty string is
ignored); the other four variables override whenever they are set. -/
def applyEnvironmentOverrides (yaml : YamlConfig) (env : EnvRaw) : YamlConfig :=
  let g := yaml.grocy
  let g := match env.GROCY_BASE_URL with
    | some s => if s != "" then { g with base_url := s } else g
    | none => g
  let g := match env.GROCY_API_KEY with
    | some s => if s != "" then { g with api_key := some s } else g
    | none => g
  let g := match env.GROCY_ENABLE_SSL_VERIFY with
    | some s => { g with enable_ssl_verify := s == "true" }
    | none => g
  let g := match env.REST_RESPONSE_SIZE_LIMIT with
    | some s => { g with response_size_limit := parseDigits s }
    | none => g
  let srv := yaml.server
  let srv := match env.ENABLE_HTTP_SERVER with
    | some s => { srv with enable_http_server := s == "true" }
    | none => srv
  let srv := match env.HTTP_SERVER_PORT with
    | some s => { srv with http_server_port := parseDigits s }
    | none => srv
  { yaml with grocy := g, server := srv }

/-- ConfigManager.loadConfig: parse the environment, parse the YAML file,
apply the environment overrides; any schema failure is fatal. -/
def loadConfig (envRaw : EnvRaw) (file : YamlFileInput) :
    Except (List (String × String)) YamlConfig :=
  match loadEnvironment envRaw with
  | .error es => .error es
  | .ok env =>
      match loadYamlConfig file with
      | .error es => .error es
      | .ok yaml => .ok (applyEnvironmentOverrides yaml env)

/-- The triple ConfigManager.parseToolConfiguration returns. -/
structure ParsedToolConfig where
  enabledTools : List String
  toolSubConfigs : List (String × SubConfigs)
  toolAckTokens : List (String × String)

/-- One iteration of the ConfigManager.parseToolConfiguration loop over
Object.entries(tools): a disabled tool contributes nothing; an enabled
tool is added to the enabled set, its ack_token is recorded only when it
is a truthy string (the empty string is skipped), and its non-reserved
keys form a sub-config map recorded only when non-empty. -/
def parseToolStep (acc : ParsedToolConfig) (entry : String × ToolConfigEntry) :
    ParsedToolConfig :=
  let toolName := entry.1
  let tc := entry.2
  if tc.enabled then
    let acc1 := { acc with enabledTools := acc.enabledTools ++ [toolName] }
    let acc2 :=
      match tc.ack_token with
      | some t =>
          if t != "" then
            { acc1 with toolAckTokens := acc1.toolAckTokens ++ [(toolName, t)] }
          else acc1
      | none => acc1
    let subConfigs := tc.extra.filter
      (fun kv => !(kv.1 == "enabled") && !(kv.1 == "ack_token"))
    if subConfigs.length > 0 then
      { acc2 with toolSubConfigs := acc2.toolSubConfigs ++ [(toolName, subConfigs)] }
    else acc2
  else acc

/-- ConfigManager.parseToolConfiguration (src/config/index.ts). -/
def parseToolConfiguration (tools : List (String × ToolConfigEntry)) :
    ParsedToolConfig :=
  tools.foldl parseToolStep ⟨[], [], []⟩

/-- The outcome of GrocyMcpServer.parseToolConfiguration: either the
fatal path (every invalid tool name logged together with the sorted valid
names, then process.exit(1) before any handler is installed) or a started
server with its enabled set. -/
inductive StartupOutcome where
  | fatal (invalidTools : List String) (validNamesSorted : List String)
  | ok (enabledTools : List String)
  deriving Repr, DecidableEq

/-- Insert a string into a sorted list, keeping it sorted. -/
def insertSorted (s : String) : List String → List String
  | [] => [s]
  | t :: ts => if s ≤ t then s :: t :: ts else t :: insertSorted s ts

/-- Sort a list of strings (Array.from(set).sort()). -/
def sortStrings : List String → List String
  | [] => []
  | s :: ss => insertSorted s (sortStrings ss)

/-- Helper of dedupKeepFirst: walk the list with the set of elements seen
so far. -/
def dedupAux (seen : List String) : List String → List String
  | [] => []
  | s :: ss =>
      if seen.contains s then dedupAux seen ss
      else s :: dedupAux (seen ++ [s]) ss

/-- new Set(list): deduplicate, keeping the first occurrence of each
element. -/
def dedupKeepFirst (l : List String) : List String :=
  dedupAux [] l

/-- GrocyMcpServer.parseToolConfiguration (src/server/mcp-server.ts):
when any tool is enabled, every enabled name absent from the registry
names is collected; a non-empty invalid list is fatal and logs the
invalid names next to the full sorted valid-name list, otherwise the
enabled set is adopted.  With no enabled tool only a warning is logged. -/
def serverParseToolConfiguration (registryNames : List String)
    (parsed : ParsedToolConfig) : StartupOutcome :=
  if parsed.enabledTools.length > 0 then
    if (parsed.enabledTools.filter
        (fun t => !((dedupKeepFirst registryNames).contains t))).length > 0 then
      .fatal (parsed.enabledTools.filter
          (fun t => !((dedupKeepFirst registryNames).contains t)))
        (sortStrings (dedupKeepFirst registryNames))
    else
      .ok parsed.enabledTools
  else
    .ok []

/-- The per-process server state after a successful startup: the enabled
set and the sub-config map.  The toolAckTokens map returned by
ConfigManager.parseToolConfiguration is not part of it: the server
destructures only enabledTools and toolSubConfigs. -/
structure ServerState where
  enabledTools : List String
  toolSubConfigs : List (String × SubConfigs)

/-- Server construction: run the startup validation; a fatal outcome is
process exit (no server state), otherwise the state holds the validated
enabled set and the sub-configs. -/
def mkServerState (registryNames : List String) (parsed : ParsedToolConfig) :
    Option ServerState :=
  match serverParseToolConfiguration registryNames parsed with
  | .fatal _ _ => none
  | .ok enabled => some ⟨enabled, parsed.toolSubConfigs⟩

/-- The outcome of one CallTool request: a thrown McpError (code and
message) or the returned tool result. -/
inductive CallOutcome where
  | mcpError (code : String) (message : String)
  | result (r : ToolResult)
  deriving Repr, DecidableEq

/-- The CallToolRequestSchema handler (src/server/mcp-server.ts): reject a
tool that is not enabled, reject a missing handler, otherwise run the
handler on the arguments and the sub-config map and return its result
unchanged; a throwing handler becomes an McpError. -/
def callTool (registry : ToolRegistry ToolHandlerFn SubConfigValidatorFn)
    (st : ServerState) (toolName : String) (args : JsStoredVal) : CallOutcome :=
  if !(st.enabledTools.contains toolName) then
    .mcpError "InvalidRequest"
      ("Tool " ++ toolName ++ " is not enabled. Enable it in your configuration.")
  else
    match getHandler registry toolName with
    | none => .mcpError "MethodNotFound" ("Unknown tool: " ++ toolName)
    | some handler =>
        match handler args (lookupKey st.toolSubConfigs toolName) with
        | .ok result => .result result
        | .error e =>
            .mcpError "InternalError" ("Tool execution failed: " ++ toolName ++ ": " ++ e)

/-- The ListToolsRequestSchema handler: every registry definition whose
name is in the enabled set, in registry order. -/
def listTools (registry : ToolRegistry ToolHandlerFn SubConfigValidatorFn)
    (st : ServerState) : List ToolDefinition :=
  (getDefinitions registry).filter (fun t => st.enabledTools.contains t.name)

/-- The last value stored under a key in a sequence of entries, as
Object.assign leaves it (later entries overwrite earlier ones). -/
def lookupLast {A : Type} (m : List (String × A)) (k : String) : Option A :=
  m.foldl (fun acc kv => if kv.1 = k then some kv.2 else acc) none

/-- First-preferred choice of two optional values. -/
def optOr {A : Type} (a b : Option A) : Option A :=
  match a with
  | some v => some v
  | none => b

/-- Resolution of one configuration leaf by the precedence the spec
states: the environment value when the variable is set, else the file
value when present, else the schema default. -/
def envBeatsFileBeatsDefault {A : Type} (envVal : Option A) (fileVal : Option A)
    (dflt : A) : A :=
  match envVal with
  | some v => v
  | none => fileVal.getD dflt

/-- Resolution of a string leaf whose override is guarded by truthiness:
the environment value only when it is set and non-empty, else the file
value when present, else the default. -/
def envNonEmptyBeatsFile (envVal : Option String) (fileVal : Option String)
    (dflt : String) : String :=
  match envVal with
  | some s => if s != "" then s else fileVal.getD dflt
  | none => fileVal.getD dflt

/-- Resolution of the optional API-key leaf: the environment value only
when it is set and non-empty, else the file value (possibly absent). -/
def envNonEmptyBeatsFileOpt (envVal : Option String) (fileVal : Option String) :
    Option String :=
  match envVal with
  | some s => if s != "" then some s else fileVal
  | none => fileVal

/-- The module shape the spec requires, in the words of the spec: a
bundle exposing a non-empty list of definitions and a map of handlers.
Modelled from the spec sentence, to be compared with isToolModule. -/
def specRequiredModuleShape (o : JsStoredVal) : Bool :=
  match o with
  | .obj fields =>
      (match lookupKey fields "definitions" with
       | some (.arr defs) => defs.length > 0
       | _ => false) &&
      (match lookupKey fields "handlers" with
       | some (.obj _) => true
       | _ => false)
  | _ => false

/-- The shape isToolModule actually accepts, stated structurally: an
object whose definitions field is a non-empty array and whose handlers
field has JavaScript type object, which is satisfied by a plain object
but also by null and by an array. -/
def acceptedModuleShape (o : JsStoredVal) : Bool :=
  match o with
  | .obj fields =>
      (match lookupKey fields "definitions" with
       | some (.arr defs) => defs.length > 0
       | _ => false) &&
      (match lookupKey fields "handlers" with
       | some (.obj _) => true
       | some (.arr _) => true
       | some .null => true
       | _ => false)
  | _ => false

/-- A tools section enabling the purchase tool with the proof token
ALPHA_TOKEN, as in the spec example. -/
def toolsPurchase : List (String × ToolConfigEntry) :=
  [("purchase", ⟨true, some "ALPHA_TOKEN", []⟩)]

/-- A handler for the purchase tool that succeeds with a fixed content
list and no error marker. -/
def purchaseHandler : ToolHandlerFn :=
  fun _ _ => .ok ⟨[⟨"text", "Operation completed successfully"⟩], false⟩

/-- A one-tool module declaring the purchase tool. -/
def purchaseModule : ToolModule ToolHandlerFn SubConfigValidatorFn :=
  ⟨[⟨"purchase", "purchase a product"⟩], [("purchase", purchaseHandler)], none⟩

/-- The registry aggregated from the purchase module alone. -/
def purchaseRegistry : ToolRegistry ToolHandlerFn SubConfigValidatorFn :=
  createToolRegistry [purchaseModule]

/-- A validator that rejects every options map, naming the offending
key, as the recipes validator does for unknown options. -/
def rejectingValidator : SubConfigValidatorFn :=
  fun _ =>
    .error "Unknown sub-configuration option foo for complete tool. Valid options are: allow_no_meal_plan"

/-- A handler for the complete tool that succeeds unconditionally. -/
def completeHandler : ToolHandlerFn :=
  fun _ _ => .ok ⟨[⟨"text", "Operation completed successfully"⟩], false⟩

/-- A module declaring the complete tool together with a registered
validator for it. -/
def completeModule : ToolModule ToolHandlerFn SubConfigValidatorFn :=
  ⟨[⟨"complete", "complete a meal plan entry"⟩],
    [("complete", completeHandler)],
    some [("complete", rejectingValidator)]⟩

/-- The registry aggregated from the complete module: its validator map
holds the rejecting validator under the name complete. -/
def completeRegistry : ToolRegistry ToolHandlerFn SubConfigValidatorFn :=
  createToolRegistry [completeModule]

/-- A tools section enabling the complete tool with one extra option key
foo, which its registered validator rejects. -/
def toolsComplete : List (String × ToolConfigEntry) :=
  [("complete", ⟨true, none, [("foo", .num 1)]⟩)]

/-- The server state reached for toolsComplete after a successful
startup. -/
def completeState : ServerState :=
  ⟨["complete"], [("complete", [("foo", .num 1)])]⟩

/-- An environment snapshot whose only set variable is the API key,
set to the empty string (schema-valid: the key is an unconstrained
optional string). -/
def emptyKeyEnv : EnvRaw := { GROCY_API_KEY := some "" }

/-- A YAML file carrying an API key. -/
def fileWithKey : YamlFileInput := { grocy_api_key := some "filekey" }

/-- An environment snapshot whose only set variable is the HTTP server
port, set to the digits-only string 0. -/
def badPortEnv : EnvRaw := { HTTP_SERVER_PORT := some "0" }

/-- An absent or empty YAML file: every leaf takes its schema default. -/
def emptyFile : YamlFileInput := {}

/-- A YAML file whose server section sets the port to 0, outside the
schema range. -/
def portZeroFile : YamlFileInput := { server_http_server_port := some 0 }

/-- A well-shaped module export object as the loader sees it. -/
def wellShapedExport : JsStoredVal :=
  .obj [("definitions", .arr [.obj [("name", .str "inventory_products_get")]]),
        ("handlers", .obj [])]

/-- A second well-shaped module export object. -/
def wellShapedExportB : JsStoredVal :=
  .obj [("definitions", .arr [.obj [("name", .str "system_users_get")]]),
        ("handlers", .obj [])]

/-- An export object whose handlers field is null: not a map of
handlers, yet of JavaScript type object. -/
def nullHandlersExport : JsStoredVal :=
  .obj [("definitions", .arr [.obj []]), ("handlers", .null)]

/-- Two modules declaring the same operation name dup with
distinguishable handlers and validators (tagged by numbers). -/
def dupModuleOne : ToolModule Nat Nat :=
  ⟨[⟨"dup", "from module one"⟩], [("dup", 1)], some [("dup", 11)]⟩

/-- The later module declaring the duplicate name dup. -/
def dupModuleTwo : ToolModule Nat Nat :=
  ⟨[⟨"dup", "from module two"⟩], [("dup", 2)], some [("dup", 22)]⟩

theorem optOr_none_right {A : Type} (a : Option A) : optOr a none = a := by
  cases a <;> rfl

theorem lookupKey_append {A : Type} (m1 m2 : List (String × A)) (q : String) :
    lookupKey (m1 ++ m2) q = optOr (lookupKey m1 q) (lookupKey m2 q) := by
  induction m1 with
  | nil => simp [lookupKey, optOr]
  | cons kv rest ih =>
      by_cases h : kv.1 = q
      · simp [lookupKey, h, optOr]
      · simp [lookupKey, h, ih]

theorem lookupKey_map_replace_self {A : Type} (m : List (String × A)) (k : String) (v : A)
    (w : A) (h : lookupKey m k = some w) :
    lookupKey (m.map fun kv => if kv.1 = k then (k, v) else kv) k = some v := by
  induction m with
  | nil => simp [lookupKey] at h
  | cons kv rest ih =>
      by_cases hk : kv.1 = k
      · simp [lookupKey, hk]
      · rw [lookupKey, if_neg hk] at h
        simpa [lookupKey, hk] using ih h

theorem lookupKey_map_replace_ne {A : Type} (m : List (String × A)) (k q : String) (v : A)
    (h : ¬ q = k) :
    lookupKey (m.map fun kv => if kv.1 = k then (k, v) else kv) q = lookupKey m q := by
  induction m with
  | nil => rfl
  | cons kv rest ih =>
      by_cases hk : kv.1 = k
      · have hkq : ¬ k = q := fun he => h he.symm
        have hkvq : ¬ kv.1 = q := by rw [hk]; exact hkq
        simp [lookupKey, hk, hkq, hkvq, ih]
      · by_cases hq : kv.1 = q
        · simp [lookupKey, hk, hq, h]
        · simp [lookupKey, hk, hq, ih]

theorem lookupKey_setKey_self {A : Type} (m : List (String × A)) (k : String) (v : A) :
    lookupKey (setKey m k v) k = some v := by
  unfold setKey
  split
  case h_1 w h => exact lookupKey_map_replace_self m k v w h
  case h_2 h =>
      rw [lookupKey_append, h]
      simp [lookupKey, optOr]

theorem lookupKey_setKey_ne {A : Type} (m : List (String × A)) (k q : String) (v : A)
    (h : ¬ q = k) : lookupKey (setKey m k v) q = lookupKey m q := by
  unfold setKey
  split
  case h_1 w hw => exact lookupKey_map_replace_ne m k q v h
  case h_2 hw =>
      rw [lookupKey_append]
      have hkq : ¬ k = q := fun he => h he.symm
      simp [lookupKey, hkq, optOr_none_right]

theorem foldl_lookupLast_shift {A : Type} (m : List (String × A)) (k : String)
    (acc : Option A) :
    m.foldl (fun a kv => if kv.1 = k then some kv.2 else a) acc =
      optOr (lookupLast m k) acc := by
  induction m generalizing acc with
  | nil => simp [lookupLast, optOr]
  | cons kv rest ih =>
      simp only [lookupLast, List.foldl_cons]
      rw [ih, ih]
      cases hl : lookupLast rest k <;> by_cases hk : kv.1 = k <;> simp [optOr, hk, hl]

theorem lookupLast_append {A : Type} (l1 l2 : List (String × A)) (k : String) :
    lookupLast (l1 ++ l2) k = optOr (lookupLast l2 k) (lookupLast l1 k) := by
  show (l1 ++ l2).foldl (fun a kv => if kv.1 = k then some kv.2 else a) none = _
  rw [List.foldl_append, foldl_lookupLast_shift]
  rfl

theorem lookupKey_objAssign {A : Type} (base src : List (String × A)) (k : String) :
    lookupKey (objAssign base src) k = optOr (lookupLast src k) (lookupKey base k) := by
  induction src generalizing base with
  | nil => simp [objAssign, lookupLast, optOr]
  | cons kv rest ih =>
      simp only [objAssign, List.foldl_cons] at ih ⊢
      rw [ih (setKey base kv.1 kv.2)]
      have hcons : lookupLast (kv :: rest) k =
          optOr (lookupLast rest k) (if kv.1 = k then some kv.2 else none) := by
        simp only [lookupLast, List.foldl_cons]
        rw [foldl_lookupLast_shift]
        rfl
      rw [hcons]
      cases hl : lookupLast rest k with
      | some v => simp [optOr]
      | none =>
          simp only [optOr]
          by_cases hk : kv.1 = k
          · rcases hk
            simp [lookupKey_setKey_self]
          · rw [lookupKey_setKey_ne base kv.1 k kv.2 (fun he => hk he.symm)]
            simp [hk]

theorem lookupKey_foldl_objAssign {A : Type} (ms : List (List (String × A)))
    (base : List (String × A)) (k : String) :
    lookupKey (ms.foldl objAssign base) k =
      optOr (lookupLast ms.flatten k) (lookupKey base k) := by
  induction ms generalizing base with
  | nil => simp [lookupLast, optOr]
  | cons m rest ih =>
      simp only [List.foldl_cons, List.flatten_cons]
      rw [ih, lookupKey_objAssign, lookupLast_append]
      cases lookupLast rest.flatten k <;> cases lookupLast m k <;> simp [optOr]

theorem getHandler_createToolRegistry {H V : Type} (mods : List (ToolModule H V))
    (k : String) :
    getHandler (createToolRegistry mods) k =
      lookupLast ((mods.map ToolModule.handlers).flatten) k := by
  unfold getHandler createToolRegistry
  rw [show mods.foldl (fun acc m => objAssign acc m.handlers) [] =
        (mods.map ToolModule.handlers).foldl objAssign [] by rw [List.foldl_map]]
  rw [lookupKey_foldl_objAssign]
  exact optOr_none_right _

theorem getValidator_createToolRegistry {H V : Type} (mods : List (ToolModule H V))
    (k : String) :
    getValidator (createToolRegistry mods) k =
      lookupLast ((mods.map fun m => m.validators.getD []).flatten) k := by
  unfold getValidator createToolRegistry
  have hfun : (fun (acc : List (String × V)) (m : ToolModule H V) =>
        match m.validators with
        | some vs => objAssign acc vs
        | none => acc) =
      fun acc m => objAssign acc (m.validators.getD []) := by
    funext acc m
    cases m.validators <;> rfl
  rw [hfun]
  rw [show mods.foldl (fun acc m => objAssign acc (m.validators.getD [])) [] =
        (mods.map fun m => m.validators.getD []).foldl objAssign [] by rw [List.foldl_map]]
  rw [lookupKey_foldl_objAssign]
  exact optOr_none_right _

theorem definitions_createToolRegistry {H V : Type} (mods : List (ToolModule H V)) :
    (createToolRegistry mods).definitions = (mods.map ToolModule.definitions).flatten := by
  unfold createToolRegistry
  have haux : ∀ (l : List (ToolModule H V)) (init : List ToolDefinition),
      l.foldl (fun acc m => acc ++ m.definitions) init =
        init ++ (l.map ToolModule.definitions).flatten := by
    intro l
    induction l with
    | nil => intro init; simp
    | cons m rest ih => intro init; simp [List.foldl_cons, ih, List.flatten_cons]
  simpa using haux mods []

theorem length_filterMap_loadModule
    (l : List (Except String (List (String × JsStoredVal))))
    (h : ∀ x ∈ l, (loadModule x).isSome = true) :
    (l.filterMap loadModule).length = l.length := by
  induction l with
  | nil => rfl
  | cons x rest ih =>
      have hx := h x (by simp)
      cases hl : loadModule x with
      | none => rw [hl] at hx; simp at hx
      | some b =>
          simp [List.filterMap_cons, hl, ih (fun y hy => h y (by simp [hy]))]

theorem mem_insertSorted (a s : String) (l : List String) :
    a ∈ insertSorted s l ↔ a = s ∨ a ∈ l := by
  induction l with
  | nil => simp [insertSorted]
  | cons t ts ih =>
      by_cases h : s ≤ t
      · simp [insertSorted, h]
      · simp [insertSorted, h, ih]
        tauto

theorem sorted_insertSorted (s : String) (l : List String)
    (h : l.Sorted (· ≤ ·)) : (insertSorted s l).Sorted (· ≤ ·) := by
  induction l with
  | nil => simp [insertSorted]
  | cons t ts ih =>
      rw [List.sorted_cons] at h
      by_cases hle : s ≤ t
      · rw [insertSorted, if_pos hle, List.sorted_cons]
        refine ⟨?_, by rw [List.sorted_cons]; exact h⟩
        intro b hb
        rcases List.mem_cons.mp hb with hb | hb
        · rw [hb]; exact hle
        · exact le_trans hle (h.1 b hb)
      · rw [insertSorted, if_neg hle, List.sorted_cons]
        refine ⟨?_, ih h.2⟩
        intro b hb
        rcases (mem_insertSorted b s ts).mp hb with hb | hb
        · rw [hb]; exact le_of_not_le hle
        · exact h.1 b hb

theorem mem_sortStrings (a : String) (l : List String) :
    a ∈ sortStrings l ↔ a ∈ l := by
  induction l with
  | nil => simp [sortStrings]
  | cons s ss ih => simp [sortStrings, mem_insertSorted, ih]

theorem sorted_sortStrings (l : List String) :
    (sortStrings l).Sorted (· ≤ ·) := by
  induction l with
  | nil => simp [sortStrings]
  | cons s ss ih => exact sorted_insertSorted s (sortStrings ss) ih

theorem mem_dedupAux (a : String) (l seen : List String) :
    a ∈ dedupAux seen l ↔ a ∈ l ∧ ¬ a ∈ seen := by
  induction l generalizing seen with
  | nil => simp [dedupAux]
  | cons s ss ih =>
      by_cases h : seen.contains s
      · have hs : s ∈ seen := by simpa using h
        rw [dedupAux, if_pos h, ih]
        constructor
        · rintro ⟨h1, h2⟩
          exact ⟨List.mem_cons_of_mem s h1, h2⟩
        · rintro ⟨h1, h2⟩
          rcases List.mem_cons.mp h1 with h1 | h1
          · exact absurd (h1 ▸ hs) h2
          · exact ⟨h1, h2⟩
      · have hs : ¬ s ∈ seen := by simpa using h
        rw [dedupAux, if_neg h]
        constructor
        · intro hmem
          rcases List.mem_cons.mp hmem with h1 | h1
          · exact ⟨h1 ▸ List.mem_cons_self s ss, h1 ▸ hs⟩
          · rcases (ih (seen ++ [s])).mp h1 with ⟨h2, h3⟩
            simp only [List.mem_append, List.mem_singleton] at h3
            push_neg at h3
            exact ⟨List.mem_cons_of_mem s h2, h3.1⟩
        · rintro ⟨h1, h2⟩
          rcases List.mem_cons.mp h1 with h1 | h1
          · exact h1 ▸ List.mem_cons_self s (dedupAux (seen ++ [s]) ss)
          · by_cases has : a = s
            · exact has ▸ List.mem_cons_self s (dedupAux (seen ++ [s]) ss)
            · refine List.mem_cons_of_mem s ((ih (seen ++ [s])).mpr ⟨h1, ?_⟩)
              simp only [List.mem_append, List.mem_singleton]
              push_neg
              exact ⟨h2, has⟩

theorem mem_dedupKeepFirst (a : String) (l : List String) :
    a ∈ dedupKeepFirst l ↔ a ∈ l := by
  rw [dedupKeepFirst, mem_dedupAux]
  simp

theorem loadConfig_ok_shape (e : EnvRaw) (f : YamlFileInput) (cfg : YamlConfig)
    (h : loadConfig e f = Except.ok cfg) :
    cfg = applyEnvironmentOverrides (fillDefaults f) e := by
  unfold loadConfig at h
  cases h1 : loadEnvironment e with
  | error es => rw [h1] at h; exact Except.noConfusion h
  | ok env =>
      rw [h1] at h
      have henv : env = e := by
        unfold loadEnvironment at h1
        by_cases hc : (envSchemaIssues e).length > 0
        · rw [if_pos hc] at h1; exact Except.noConfusion h1
        · rw [if_neg hc] at h1
          exact (Except.ok.injEq _ _).mp h1 |>.symm
      cases h2 : loadYamlConfig f with
      | error es => rw [h2] at h; exact Except.noConfusion h
      | ok yaml =>
          rw [h2] at h
          have hyaml : yaml = fillDefaults f := by
            unfold loadYamlConfig at h2
            by_cases hc : (yamlSchemaIssues f).length > 0
            · rw [if_pos hc] at h2; exact Except.noConfusion h2
            · rw [if_neg hc] at h2
              exact (Except.ok.injEq _ _).mp h2 |>.symm
          have := (Except.ok.injEq _ _).mp h
          rw [← this, hyaml, henv]

/-- C1: the claim says a configured acknowledgment proof token is
appended exactly once to every successful result.  The code disagrees:
ConfigManager.parseToolConfiguration does record the token, but the
server discards the toolAckTokens map when destructuring, and the
CallTool handler returns the handler result unchanged, so for the
purchase tool configured with token ALPHA_TOKEN a successful call
returns exactly the handler content with no token entry. -/
theorem ackToken_configured_but_never_appended :
    (parseToolConfiguration toolsPurchase).toolAckTokens = [("purchase", "ALPHA_TOKEN")] ∧
    mkServerState (getToolNames purchaseRegistry) (parseToolConfiguration toolsPurchase)
      = some ⟨["purchase"], []⟩ ∧
    callTool purchaseRegistry ⟨["purchase"], []⟩ "purchase" JsStoredVal.undefinedVal
      = CallOutcome.result ⟨[⟨"text", "Operation completed successfully"⟩], false⟩ ∧
    (match callTool purchaseRegistry ⟨["purchase"], []⟩ "purchase" JsStoredVal.undefinedVal with
     | CallOutcome.result r => r.content.all (fun c => !(c.text == "ALPHA_TOKEN"))
     | CallOutcome.mcpError _ _ => false) = true :=
  ⟨rfl, rfl, rfl, rfl⟩

/-- C10: an enabled tool whose configured ack_token is the empty string
is treated exactly as a tool with no ack_token at all: the truthiness
guard skips the empty string, so the parsed configuration triple is
identical in both cases. -/
theorem emptyAckToken_treated_as_absent (pre post : List (String × ToolConfigEntry))
    (name : String) (enabled : Bool) (extra : List (String × JsStoredVal)) :
    parseToolConfiguration (pre ++ (name, ⟨enabled, some "", extra⟩) :: post) =
      parseToolConfiguration (pre ++ (name, ⟨enabled, none, extra⟩) :: post) := by
  unfold parseToolConfiguration
  rw [List.foldl_append, List.foldl_append]
  simp only [List.foldl_cons]
  have hstep : ∀ acc, parseToolStep acc (name, ⟨enabled, some "", extra⟩) =
      parseToolStep acc (name, ⟨enabled, none, extra⟩) := by
    intro acc
    cases enabled <;> rfl
  rw [hstep]

/-- C9: an operation present in the registry but outside the enabled set
is invisible to ListTools and a CallTool on its name is rejected with an
InvalidRequest error instead of running its handler. -/
theorem disabledTool_hidden_and_rejected
    (registry : ToolRegistry ToolHandlerFn SubConfigValidatorFn) (st : ServerState)
    (name : String) (args : JsStoredVal)
    (hreg : (getHandler registry name).isSome = true)
    (hdis : ¬ name ∈ st.enabledTools) :
    (∀ d ∈ listTools registry st, d.name ≠ name) ∧
    callTool registry st name args = CallOutcome.mcpError "InvalidRequest"
      ("Tool " ++ name ++ " is not enabled. Enable it in your configuration.") := by
  have hcontains : st.enabledTools.contains name = false := by
    cases hc : st.enabledTools.contains name
    · rfl
    · exact absurd (List.mem_of_elem_eq_true hc) hdis
  constructor
  · intro d hd he
    have hp := List.of_mem_filter hd
    rw [he, hcontains] at hp
    exact Bool.noConfusion hp
  · rw [callTool, hcontains]
    rfl

/-- Witness for C9 at a concrete input: the purchase registry with an
empty enabled set hides the purchase tool and rejects calling it. -/
theorem disabledTool_hidden_and_rejected_witness :
    (getHandler purchaseRegistry "purchase").isSome = true ∧
    ((∀ d ∈ listTools purchaseRegistry ⟨[], []⟩, d.name ≠ "purchase") ∧
     callTool purchaseRegistry ⟨[], []⟩ "purchase" JsStoredVal.undefinedVal =
       CallOutcome.mcpError "InvalidRequest"
         ("Tool " ++ "purchase" ++ " is not enabled. Enable it in your configuration.")) :=
  ⟨rfl, disabledTool_hidden_and_rejected purchaseRegistry ⟨[], []⟩ "purchase"
    JsStoredVal.undefinedVal rfl (by simp)⟩

/-- C5: when one of the candidate modules fails to load, the failure is
contained: loadAllModules returns exactly the bundles of the other
modules, and with N modules of which all but one load it aggregates
exactly N minus 1 bundles.  loadAllModules is total, so a partial
failure never aborts loading. -/
theorem failedModule_excluded_others_load
    (pre post : List (Except String (List (String × JsStoredVal))))
    (bad : Except String (List (String × JsStoredVal)))
    (hpre : ∀ x ∈ pre, (loadModule x).isSome = true)
    (hpost : ∀ x ∈ post, (loadModule x).isSome = true)
    (hbad : loadModule bad = none) :
    loadAllModules (pre ++ bad :: post) = loadAllModules pre ++ loadAllModules post ∧
    (loadAllModules (pre ++ bad :: post)).length = pre.length + post.length := by
  constructor
  · unfold loadAllModules
    rw [List.filterMap_append]
    simp [List.filterMap_cons, hbad]
  · unfold loadAllModules
    rw [List.filterMap_append]
    simp only [List.filterMap_cons, hbad]
    rw [List.length_append, length_filterMap_loadModule pre hpre,
      length_filterMap_loadModule post hpost]

/-- Witness for C5 at a concrete input: of three candidate modules the
middle one rejects at import time; the other two are both aggregated. -/
theorem failedModule_excluded_others_load_witness :
    (∀ x ∈ [Except.ok [("inventoryModule", wellShapedExport)]],
        (loadModule x).isSome = true) ∧
    (∀ x ∈ [Except.ok [("systemModule", wellShapedExportB)]],
        (loadModule x).isSome = true) ∧
    loadModule (Except.error "Cannot find module") = none ∧
    (loadAllModules [Except.ok [("inventoryModule", wellShapedExport)],
        Except.error "Cannot find module",
        Except.ok [("systemModule", wellShapedExportB)]] =
      loadAllModules [Except.ok [("inventoryModule", wellShapedExport)]] ++
        loadAllModules [Except.ok [("systemModule", wellShapedExportB)]] ∧
     (loadAllModules [Except.ok [("inventoryModule", wellShapedExport)],
        Except.error "Cannot find module",
        Except.ok [("systemModule", wellShapedExportB)]]).length = 1 + 1) := by
  refine ⟨?_, ?_, rfl, ?_⟩
  · intro x hx
    rw [List.mem_singleton] at hx
    subst hx
    rfl
  · intro x hx
    rw [List.mem_singleton] at hx
    subst hx
    rfl
  · exact failedModule_excluded_others_load
      [Except.ok [("inventoryModule", wellShapedExport)]]
      [Except.ok [("systemModule", wellShapedExportB)]]
      (Except.error "Cannot find module")
      (by intro x hx; rw [List.mem_singleton] at hx; subst hx; rfl)
      (by intro x hx; rw [List.mem_singleton] at hx; subst hx; rfl)
      rfl

/-- Counterexample to C3: the complete tool is enabled with the extra
option foo, the registry holds a validator for it that rejects exactly
these options, yet startup succeeds and the call returns the handler
result with no error: the registered validator is simply never run. -/
theorem registeredValidator_failure_not_surfaced :
    mkServerState (getToolNames completeRegistry) (parseToolConfiguration toolsComplete)
      = some completeState ∧
    (lookupKey completeState.toolSubConfigs "complete").map List.length = some 1 ∧
    ((getValidator completeRegistry "complete").map
        (fun v => v [("foo", JsStoredVal.num 1)])) =
      some (Except.error
        "Unknown sub-configuration option foo for complete tool. Valid options are: allow_no_meal_plan") ∧
    callTool completeRegistry completeState "complete" JsStoredVal.undefinedVal
      = CallOutcome.result ⟨[⟨"text", "Operation completed successfully"⟩], false⟩ :=
  ⟨rfl, rfl, rfl, rfl⟩

/-- C3 amended: a validator stored in the registry validator map is
never consulted by dispatch: the outcome of every call is unchanged by
replacing the validator map with anything else, so options always reach
the handler unvalidated. -/
theorem callTool_ignores_validator_map
    (registry : ToolRegistry ToolHandlerFn SubConfigValidatorFn) (st : ServerState)
    (name : String) (args : JsStoredVal)
    (vs : List (String × SubConfigValidatorFn)) :
    callTool { registry with validators := vs } st name args =
      callTool registry st name args := rfl

/-- Counterexample to C4: for two modules both declaring the name dup,
handler and validator lookup yield only the later module entry, but the
definition list keeps both definitions; the earlier module entry is
still present and the name is listed twice. -/
theorem duplicateName_definitions_keep_both :
    getHandler (createToolRegistry [dupModuleOne, dupModuleTwo]) "dup" = some 2 ∧
    getValidator (createToolRegistry [dupModuleOne, dupModuleTwo]) "dup" = some 22 ∧
    getDefinitions (createToolRegistry [dupModuleOne, dupModuleTwo]) =
      [⟨"dup", "from module one"⟩, ⟨"dup", "from module two"⟩] ∧
    (⟨"dup", "from module one"⟩ : ToolDefinition) ∈
      getDefinitions (createToolRegistry [dupModuleOne, dupModuleTwo]) ∧
    (getToolNames (createToolRegistry [dupModuleOne, dupModuleTwo])).count "dup" = 2 := by
  refine ⟨rfl, rfl, rfl, by decide, by decide⟩

/-- C4 amended: aggregation is last-write-wins for handler and validator
lookup (the last entry across the modules in order wins), while the
definition list is the concatenation of all module definition lists, so
duplicate names retain every definition including the earlier one. -/
theorem registry_lastWriteWins_except_definitions {H V : Type}
    (mods : List (ToolModule H V)) (name : String) :
    getDefinitions (createToolRegistry mods) = (mods.map ToolModule.definitions).flatten ∧
    getHandler (createToolRegistry mods) name =
      lookupLast ((mods.map ToolModule.handlers).flatten) name ∧
    getValidator (createToolRegistry mods) name =
      lookupLast ((mods.map fun m => m.validators.getD []).flatten) name :=
  ⟨definitions_createToolRegistry mods, getHandler_createToolRegistry mods name,
    getValidator_createToolRegistry mods name⟩

/-- Counterexample to C8: a bundle whose handlers field is null exposes
no map of handlers, yet isToolModule accepts it, because in JavaScript
the typeof operator maps null to object. -/
theorem nullHandlers_accepted_without_handler_map :
    isToolModule nullHandlersExport = true ∧
    specRequiredModuleShape nullHandlersExport = false :=
  ⟨rfl, rfl⟩

/-- C8 amended: isToolModule accepts exactly the objects whose
definitions field is a non-empty array and whose handlers field has
JavaScript type object, which covers a handlers map but also null and an
array. -/
theorem isToolModule_characterization (o : JsStoredVal) :
    isToolModule o = acceptedModuleShape o := by
  cases o with
  | undefinedVal => rfl
  | null => rfl
  | bool b => cases b <;> rfl
  | num n =>
      simp [isToolModule, acceptedModuleShape, JsStoredVal.truthy, JsStoredVal.typeofStr]
  | str s =>
      simp [isToolModule, acceptedModuleShape, JsStoredVal.truthy, JsStoredVal.typeofStr]
  | arr elems =>
      simp [isToolModule, acceptedModuleShape, JsStoredVal.truthy, JsStoredVal.typeofStr,
        JsStoredVal.getField, JsStoredVal.isArrayVal]
  | obj fields =>
      cases hd : lookupKey fields "definitions" with
      | none =>
          simp [isToolModule, acceptedModuleShape, JsStoredVal.truthy,
            JsStoredVal.typeofStr, JsStoredVal.getField, JsStoredVal.isArrayVal, hd]
      | some dv =>
          cases hh : lookupKey fields "handlers" with
          | none =>
              cases dv <;>
                simp [isToolModule, acceptedModuleShape, JsStoredVal.truthy,
                  JsStoredVal.typeofStr, JsStoredVal.getField, JsStoredVal.isArrayVal,
                  JsStoredVal.arrLength, hd, hh]
          | some hv =>
              cases dv <;> cases hv <;>
                simp [isToolModule, acceptedModuleShape, JsStoredVal.truthy,
                  JsStoredVal.typeofStr, JsStoredVal.getField, JsStoredVal.isArrayVal,
                  JsStoredVal.arrLength, hd, hh]

/-- C2: when any tool is enabled under a name the registry does not
know, startup always takes the fatal path: the outcome carries exactly
the enabled-but-unknown names, together with a sorted list holding
precisely the valid registry names; it is never a silent skip. -/
theorem enabledUnknownName_always_fatal (names : List String)
    (parsed : ParsedToolConfig) (t0 : String)
    (h1 : t0 ∈ parsed.enabledTools) (h2 : ¬ t0 ∈ names) :
    ∃ inv sortedValid,
      serverParseToolConfiguration names parsed = StartupOutcome.fatal inv sortedValid ∧
      (∀ t, t ∈ inv ↔ (t ∈ parsed.enabledTools ∧ ¬ t ∈ names)) ∧
      (∀ n, n ∈ sortedValid ↔ n ∈ names) ∧
      sortedValid.Sorted (· ≤ ·) := by
  have hflt : ∀ t, (t ∈ parsed.enabledTools.filter
      (fun t => !((dedupKeepFirst names).contains t))) ↔
      (t ∈ parsed.enabledTools ∧ ¬ t ∈ names) := by
    intro t
    rw [List.mem_filter]
    constructor
    · rintro ⟨ha, hb⟩
      refine ⟨ha, ?_⟩
      intro hmem
      have hct : (dedupKeepFirst names).contains t = true :=
        List.elem_eq_true_of_mem ((mem_dedupKeepFirst t names).mpr hmem)
      rw [hct] at hb
      exact Bool.noConfusion hb
    · rintro ⟨ha, hb⟩
      refine ⟨ha, ?_⟩
      cases hc : (dedupKeepFirst names).contains t
      · rfl
      · exact absurd ((mem_dedupKeepFirst t names).mp (List.mem_of_elem_eq_true hc)) hb
  have hlen : parsed.enabledTools.length > 0 :=
    List.length_pos.mpr (List.ne_nil_of_mem h1)
  have ht0 : t0 ∈ parsed.enabledTools.filter
      (fun t => !((dedupKeepFirst names).contains t)) := (hflt t0).mpr ⟨h1, h2⟩
  have hinv : (parsed.enabledTools.filter
      (fun t => !((dedupKeepFirst names).contains t))).length > 0 :=
    List.length_pos.mpr (List.ne_nil_of_mem ht0)
  refine ⟨parsed.enabledTools.filter (fun t => !((dedupKeepFirst names).contains t)),
    sortStrings (dedupKeepFirst names), ?_, hflt, ?_, sorted_sortStrings _⟩
  · unfold serverParseToolConfiguration
    rw [if_pos hlen, if_pos hinv]
  · intro n
    rw [mem_sortStrings, mem_dedupKeepFirst]

/-- Witness for C2 at a concrete input: enabling unknown_op against a
registry knowing only stock_get_all is fatal, the invalid list holds
unknown_op, and the logged valid list is exactly the sorted registry
names. -/
theorem enabledUnknownName_always_fatal_witness :
    "unknown_op" ∈ (⟨["unknown_op"], [], []⟩ : ParsedToolConfig).enabledTools ∧
    ¬ "unknown_op" ∈ ["stock_get_all"] ∧
    (∃ inv sortedValid,
      serverParseToolConfiguration ["stock_get_all"] ⟨["unknown_op"], [], []⟩ =
        StartupOutcome.fatal inv sortedValid ∧
      (∀ t, t ∈ inv ↔ (t ∈ (⟨["unknown_op"], [], []⟩ : ParsedToolConfig).enabledTools ∧
        ¬ t ∈ ["stock_get_all"])) ∧
      (∀ n, n ∈ sortedValid ↔ n ∈ ["stock_get_all"]) ∧
      sortedValid.Sorted (· ≤ ·)) :=
  ⟨by simp, by simp, enabledUnknownName_always_fatal ["stock_get_all"]
    ⟨["unknown_op"], [], []⟩ "unknown_op" (by simp) (by simp)⟩

/-- Counterexample to C6: GROCY_API_KEY is set (to the empty string,
which its schema accepts), the file carries an API key, and the resolved
value is the file value rather than the set environment value: the
override is guarded by truthiness, not by being set. -/
theorem setEmptyApiKey_does_not_override :
    emptyKeyEnv.GROCY_API_KEY = some "" ∧
    envSchemaIssues emptyKeyEnv = [] ∧
    (loadConfig emptyKeyEnv fileWithKey).toOption.map (fun c => c.grocy.api_key)
      = some (some "filekey") ∧
    ((loadConfig emptyKeyEnv fileWithKey).toOption.map (fun c => c.grocy.api_key))
      ≠ some (some "") :=
  ⟨rfl, rfl, rfl, by decide⟩

set_option maxRecDepth 8192 in
/-- C6 amended: every leaf of the downstream and transport sections is
resolved with environment over file over schema default, where the base
URL and API key overrides require a set and non-empty environment value,
and the other four leaves override whenever their variable is set. -/
theorem env_override_precedence (e : EnvRaw) (f : YamlFileInput) (cfg : YamlConfig)
    (h : loadConfig e f = Except.ok cfg) :
    cfg.grocy.base_url =
      envNonEmptyBeatsFile e.GROCY_BASE_URL f.grocy_base_url "http://localhost:9283" ∧
    cfg.grocy.api_key =
      envNonEmptyBeatsFileOpt e.GROCY_API_KEY f.grocy_api_key ∧
    cfg.grocy.enable_ssl_verify =
      envBeatsFileBeatsDefault (e.GROCY_ENABLE_SSL_VERIFY.map (fun s => s == "true"))
        f.grocy_enable_ssl_verify true ∧
    cfg.grocy.response_size_limit =
      envBeatsFileBeatsDefault (e.REST_RESPONSE_SIZE_LIMIT.map parseDigits)
        f.grocy_response_size_limit 10000 ∧
    cfg.server.enable_http_server =
      envBeatsFileBeatsDefault (e.ENABLE_HTTP_SERVER.map (fun s => s == "true"))
        f.server_enable_http_server false ∧
    cfg.server.http_server_port =
      envBeatsFileBeatsDefault (e.HTTP_SERVER_PORT.map parseDigits)
        f.server_http_server_port 8080 := by
  have hc := loadConfig_ok_shape e f cfg h
  subst hc
  obtain ⟨u, a, sv, sl, eh, hp⟩ := e
  cases u <;> cases a <;> cases sv <;> cases sl <;> cases eh <;> cases hp <;>
    refine ⟨?_, ?_, ?_, ?_, ?_, ?_⟩ <;>
    simp only [applyEnvironmentOverrides, fillDefaults, envNonEmptyBeatsFile,
      envNonEmptyBeatsFileOpt, envBeatsFileBeatsDefault, Option.map] <;>
    first
    | rfl
    | (split_ifs <;> rfl)

/-- Witness for C6 amended at a concrete input: the empty-API-key
environment against the file carrying an API key resolves successfully
and satisfies all six per-leaf precedence equations. -/
theorem env_override_precedence_witness :
    loadConfig emptyKeyEnv fileWithKey =
      Except.ok (applyEnvironmentOverrides (fillDefaults fileWithKey) emptyKeyEnv) ∧
    ((applyEnvironmentOverrides (fillDefaults fileWithKey) emptyKeyEnv).grocy.base_url =
      envNonEmptyBeatsFile emptyKeyEnv.GROCY_BASE_URL fileWithKey.grocy_base_url
        "http://localhost:9283" ∧
    (applyEnvironmentOverrides (fillDefaults fileWithKey) emptyKeyEnv).grocy.api_key =
      envNonEmptyBeatsFileOpt emptyKeyEnv.GROCY_API_KEY fileWithKey.grocy_api_key ∧
    (applyEnvironmentOverrides (fillDefaults fileWithKey) emptyKeyEnv).grocy.enable_ssl_verify =
      envBeatsFileBeatsDefault (emptyKeyEnv.GROCY_ENABLE_SSL_VERIFY.map (fun s => s == "true"))
        fileWithKey.grocy_enable_ssl_verify true ∧
    (applyEnvironmentOverrides (fillDefaults fileWithKey) emptyKeyEnv).grocy.response_size_limit =
      envBeatsFileBeatsDefault (emptyKeyEnv.REST_RESPONSE_SIZE_LIMIT.map parseDigits)
        fileWithKey.grocy_response_size_limit 10000 ∧
    (applyEnvironmentOverrides (fillDefaults fileWithKey) emptyKeyEnv).server.enable_http_server =
      envBeatsFileBeatsDefault (emptyKeyEnv.ENABLE_HTTP_SERVER.map (fun s => s == "true"))
        fileWithKey.server_enable_http_server false ∧
    (applyEnvironmentOverrides (fillDefaults fileWithKey) emptyKeyEnv).server.http_server_port =
      envBeatsFileBeatsDefault (emptyKeyEnv.HTTP_SERVER_PORT.map parseDigits)
        fileWithKey.server_http_server_port 8080) :=
  ⟨rfl, env_override_precedence emptyKeyEnv fileWithKey _ rfl⟩

/-- Counterexample to C7: the environment variable HTTP_SERVER_PORT set
to the digits-only string 0 passes the environment schema, so
configuration resolution succeeds and the resolved port is 0, outside
the range 1 to 65535: the invalid value reaches the resolved
configuration instead of being fatal. -/
theorem envPortZero_reaches_resolved_config :
    badPortEnv.HTTP_SERVER_PORT = some "0" ∧
    (loadConfig badPortEnv emptyFile).toOption.map (fun c => c.server.http_server_port)
      = some 0 ∧
    ¬ (1 ≤ (0 : Int) ∧ (0 : Int) ≤ 65535) :=
  ⟨rfl, rfl, by decide⟩

/-- C7 amended: for values arriving through the YAML file the claim
holds: a port outside 1 to 65535 puts a field-path issue for the port in
the reported issue list, a non-positive size limit likewise, and no
environment snapshot lets such a file resolve successfully. -/
theorem yamlPortRangeViolation_fatal (f : YamlFileInput) (p : Int)
    (hport : f.server_http_server_port = some p) (hbad : p < 1 ∨ 65535 < p) :
    (∃ msg, ("server.http_server_port", msg) ∈ yamlSchemaIssues f) ∧
    (∀ n, f.grocy_response_size_limit = some n → n ≤ 0 →
      ∃ msg, ("grocy.response_size_limit", msg) ∈ yamlSchemaIssues f) ∧
    (∀ env cfg, ¬ loadConfig env f = Except.ok cfg) := by
  have hmem : ∃ msg, ("server.http_server_port", msg) ∈ yamlSchemaIssues f := by
    unfold yamlSchemaIssues
    rw [hport]
    rcases hbad with hb | hb
    · exact ⟨"Number must be greater than or equal to 1",
        by simp [hb, List.mem_append]⟩
    · exact ⟨"Number must be less than or equal to 65535",
        by simp [hb, List.mem_append]⟩
  refine ⟨hmem, ?_, ?_⟩
  · intro n hn hle
    unfold yamlSchemaIssues
    rw [hn]
    exact ⟨"Number must be greater than 0", by simp [hle, List.mem_append]⟩
  · intro env cfg hok
    have hlen : (yamlSchemaIssues f).length > 0 := by
      obtain ⟨msg, hmsg⟩ := hmem
      exact List.length_pos.mpr (List.ne_nil_of_mem hmsg)
    unfold loadConfig at hok
    cases h1 : loadEnvironment env with
    | error es => rw [h1] at hok; exact Except.noConfusion hok
    | ok env2 =>
        rw [h1] at hok
        unfold loadYamlConfig at hok
        rw [if_pos hlen] at hok
        exact Except.noConfusion hok

/-- Witness for C7 amended at a concrete input: a file setting the port
to 0 reports a port issue and never resolves. -/
theorem yamlPortRangeViolation_fatal_witness :
    portZeroFile.server_http_server_port = some 0 ∧
    ((0 : Int) < 1 ∨ (65535 : Int) < 0) ∧
    ((∃ msg, ("server.http_server_port", msg) ∈ yamlSchemaIssues portZeroFile) ∧
     (∀ n, portZeroFile.grocy_response_size_limit = some n → n ≤ 0 →
       ∃ msg, ("grocy.response_size_limit", msg) ∈ yamlSchemaIssues portZeroFile) ∧
     (∀ env cfg, ¬ loadConfig env portZeroFile = Except.ok cfg)) :=
  ⟨rfl, Or.inl (by decide),
    yamlPortRangeViolation_fatal portZeroFile 0 rfl (Or.inl (by decide))⟩

end McpGrocy
